import Mathlib

/-!
Verification development for the client runner of the huggingbench repository
(src/client/runner.py).  The Python code is embedded shallowly: pure control
flow becomes Lean functions, mutable state becomes explicit state records,
and the external Triton client (an out-of-scope collaborator, specified only
through its interface Result-or-null / PendingHandle-or-null) is an oracle
record of functions.  Machine floats of the source (timer readings, the
progress fraction) are modelled by exact integer and rational arithmetic.
-/

/-- Samples are opaque; only their grouping matters to the runner. -/
abbrev Sample := Nat

/-- A batch is an ordered list of samples (runner.py builds plain Python lists). -/
abbrev Batch := List Sample

/-- Log events emitted by send_batch (runner.py lines 35-59).  Debug-level
lines carry no information used by any claim and are omitted. -/
inductive LogEvent where
  | warnEmptyBatch
  | warnFailedAsync
  | infoFailedSync
  deriving DecidableEq

/-- RunnerConfig (runner.py lines 13-17): three attributes, stored as given.
Python integers are arbitrary-precision, hence Int. -/
structure RunnerConfig where
  batch_size : Int
  async_req : Bool
  workers : Int
  deriving DecidableEq

/-- RunnerConfig.__init__ (runner.py lines 14-17): assigns the three fields.
The body contains no checks and no raise statement; it is a total function
into RunnerConfig. -/
def RunnerConfig.init (batch_size : Int) (async_req : Bool) (workers : Int) : RunnerConfig :=
  ⟨batch_size, async_req, workers⟩

/-- ThreadSafeCounter (runner.py lines 129-144).  The lock serialises the
increments; the embedding keeps the counter value, with interleaving handled
by applying the operations in some order. -/
structure ThreadSafeCounter where
  _counter : Int
  deriving DecidableEq

/-- ThreadSafeCounter.__init__ (runner.py line 130): stores the initial value. -/
def ThreadSafeCounter.init (val : Int) : ThreadSafeCounter := ⟨val⟩

/-- ThreadSafeCounter.increment (runner.py lines 134-136). -/
def ThreadSafeCounter.increment (c : ThreadSafeCounter) (val : Int) : ThreadSafeCounter :=
  ⟨c._counter + val⟩

/-- ThreadSafeCounter.value (runner.py lines 138-140). -/
def ThreadSafeCounter.value (c : ThreadSafeCounter) : Int := c._counter

/-- ThreadSafeCounter.set (runner.py lines 142-144). -/
def ThreadSafeCounter.setTo (c : ThreadSafeCounter) (val : Int) : ThreadSafeCounter := ⟨val⟩

/-- Environment oracle for one run: the external Triton client interface
(infer_batch / infer_batch_async return a result / pending handle, or None on
failure; a pending handle resolves via get_result which either returns or
raises InferenceServerException), together with the wall clock read by
timeit.default_timer.  Calls are indexed by submission index so distinct
submissions may behave differently; time is indexed by the tick at which the
clock is read. -/
structure RunEnv where
  inferBatch : Nat → Batch → Option Nat
  inferBatchAsync : Nat → Batch → Option Nat
  getResultOk : Nat → Bool
  time : Nat → Int

/-- Mutable state touched by send_batch: self.execution_times, the bounded
async_reqs queue (runner.py line 29; capacity 200 only throttles producers
and does not change which handles are enqueued, so the queue is a list),
the log, the clock tick, and the submission index. -/
structure SendState where
  times : List Int
  queue : List Nat
  log : List LogEvent
  tick : Nat
  idx : Nat
  deriving DecidableEq

/-- send_batch (runner.py lines 35-60): an empty batch is logged and dropped
with no further effect (early return of None); otherwise the clock is read,
the client is called on the sync or async path, a handle from a successful
async call is enqueued, the clock is read again, and the elapsed time is
appended to execution_times.  The returned value is the Python return value:
none for the early return, some success otherwise. -/
def send_batch (cfg : RunnerConfig) (env : RunEnv) (st : SendState) (batch : Batch) :
    SendState × Option Bool :=
  if batch.length = 0 then
    ({ st with log := st.log ++ [LogEvent.warnEmptyBatch] }, none)
  else
    let start := env.time st.tick
    let afterCall :=
      if cfg.async_req then
        match env.inferBatchAsync st.idx batch with
        | some req => (true, st.queue ++ [req], st.log)
        | none => (false, st.queue, st.log ++ [LogEvent.warnFailedAsync])
      else
        match env.inferBatch st.idx batch with
        | some _ => (true, st.queue, st.log)
        | none => (false, st.queue, st.log ++ [LogEvent.infoFailedSync])
    let stop := env.time (st.tick + 1)
    (⟨st.times ++ [stop - start], afterCall.2.1, afterCall.2.2, st.tick + 2, st.idx + 1⟩,
      some afterCall.1)

/-- Batch assembly loop of Runner.run (runner.py lines 102-113): samples are
appended to the current batch; when the batch reaches config.batch_size it is
submitted and a fresh batch is started; a nonempty trailing batch is
submitted after the loop.  The comparison is the Python == between the batch
length and the stored (integer) batch_size. -/
def gather (bs : Int) : List Sample → Batch → List Batch
  | [], batch => if 0 < batch.length then [batch] else []
  | s :: rest, batch =>
    if ((batch ++ [s]).length : Int) = bs then
      (batch ++ [s]) :: gather bs rest []
    else
      gather bs rest (batch ++ [s])

/-- The batches submitted by Runner.run for a given sample sequence, in
submission order (runner.py lines 102-113, starting from the empty batch). -/
def assembleBatches (bs : Int) (samples : List Sample) : List Batch :=
  gather bs samples []

/-- Submission of every assembled batch through executor.submit, in dataset
order (runner.py lines 105-113).  Each submission runs send_batch and the
future records its returned value; the list of those values is kept in
submission order. -/
def sendAll (cfg : RunnerConfig) (env : RunEnv) : List Batch → SendState → SendState × List (Option Bool)
  | [], st => (st, [])
  | b :: rest, st =>
    let r := send_batch cfg env st b
    let r2 := sendAll cfg env rest r.1
    (r2.1, r.2 :: r2.2)

/-- Exceptions observable from Future.result inside future_result
(runner.py line 87): cancellation, timeout, or any other exception raised by
the dispatch task. -/
inductive TaskExn where
  | cancelled
  | timeout
  | other
  deriving DecidableEq

/-- What awaiting one future yields: the value send_batch returned, or a
raised exception. -/
inductive FutureOutcome where
  | value (r : Option Bool)
  | raised (e : TaskExn)
  deriving DecidableEq

/-- The except clause of future_result (runner.py line 88) names
CancelledError, TimeoutError and Exception; each modelled exception kind is
an instance of one of these classes, so each is caught. -/
def handlerCatches : TaskExn → Bool
  | TaskExn.cancelled => true
  | TaskExn.timeout => true
  | TaskExn.other => true

/-- Progress bookkeeping of future_result (runner.py lines 77-79, 92-100):
item_cnt counts completions since the last report, batch_group_cnt counts
reports already emitted. -/
structure Progress where
  item_cnt : Nat
  batch_group_cnt : Nat
  deriving DecidableEq

/-- State threaded through the future-result callbacks: the two shared
counters, the progress record and the progress lines logged so far (each
line keeps only the printed percentage). -/
structure FRState where
  success : ThreadSafeCounter
  fail : ThreadSafeCounter
  prog : Progress
  lines : List Nat
  deriving DecidableEq

/-- The finally block of future_result (runner.py lines 91-100): increment
item_cnt, and when item_cnt / total exceeds 0.1 log one line printing
int(progress * batch_group_cnt * 100) and reset.  The float comparison
item_cnt / total > 0.1 is modelled exactly as the rational comparison
10 * item_cnt > total, and int(...) as the rational floor
item_cnt * batch_group_cnt * 100 / total. -/
def progressStep (total : Nat) (st : FRState) : FRState :=
  let item_cnt := st.prog.item_cnt + 1
  if 10 * item_cnt > total then
    { st with
      prog := ⟨0, st.prog.batch_group_cnt + 1⟩,
      lines := st.lines ++ [item_cnt * st.prog.batch_group_cnt * 100 / total] }
  else
    { st with prog := ⟨item_cnt, st.prog.batch_group_cnt⟩ }

/-- future_result (runner.py lines 82-100): a value of some true (Python
truthiness: only True is truthy among the possible returns True, False,
None) increments the success counter, any other value the failure counter;
a raised exception matching the except tuple is logged and increments the
failure counter; the finally block then updates progress.  An exception not
matched by the tuple would propagate (Except.error); the modelled kinds are
all matched. -/
def future_result (total : Nat) (o : FutureOutcome) (st : FRState) : Except TaskExn FRState :=
  match o with
  | FutureOutcome.value r =>
    if r = some true then
      Except.ok (progressStep total { st with success := st.success.increment 1 })
    else
      Except.ok (progressStep total { st with fail := st.fail.increment 1 })
  | FutureOutcome.raised e =>
    if handlerCatches e then
      Except.ok (progressStep total { st with fail := st.fail.increment 1 })
    else
      Except.error e

/-- The as_completed loop of Runner.run (runner.py lines 115-116): each
future is fed to future_result.  The totals it produces do not depend on the
completion order, so the loop is folded in submission order.  An uncaught
exception would abort the loop; with the modelled exception kinds this
branch is unreachable. -/
def processFutures (total : Nat) : List FutureOutcome → FRState → FRState
  | [], st => st
  | o :: os, st =>
    match future_result total o st with
    | Except.ok st' => processFutures total os st'
    | Except.error _ => st

/-- One resolution step of get_async_result per handle (runner.py lines
66-74): get_result either returns, incrementing the success counter, or
raises InferenceServerException, incrementing the failure counter.  drainAll
applies this to every enqueued handle; it models the premise of the claims
that speak about the state after the collector has drained the queue (the
actual termination behaviour of the collector is modelled separately by the
collector step relation below). -/
def drainAll (env : RunEnv) : List Nat → FRState → FRState
  | [], st => st
  | h :: rest, st =>
    if env.getResultOk h then
      drainAll env rest { st with success := st.success.increment 1 }
    else
      drainAll env rest { st with fail := st.fail.increment 1 }

/-- Runner state (runner.py lines 20-25): the config, the dataset wrapped in
a DatasetIterator, and self.execution_times.  DatasetIterator lives in
client/base.py which is not part of the sources; modelled from the spec: a
finite ordered sample sequence whose len() is the total item count. -/
structure Runner where
  config : RunnerConfig
  dataset : List Sample
  execution_times : List Int
  deriving DecidableEq

/-- Everything observable from one call of Runner.run: the returned list of
execution times, the final counter values, the progress lines, the send_batch
return value of every submitted future in submission order, the handles that
were enqueued for the collector, the log, and the runner object after the
call. -/
structure RunResult where
  ret : List Int
  success : Int
  fail : Int
  lines : List Nat
  outcomes : List (Option Bool)
  handles : List Nat
  log : List LogEvent
  runnerAfter : Runner
  deriving DecidableEq

/-- Runner.run (runner.py lines 27-126): assemble and submit the batches,
await every future through future_result, and in async mode account the
resolution of the enqueued handles (drained collector; lines 64-75).  At the
end self.execution_times is returned and the attribute is reset to the empty
list (lines 123-126); no other attribute of self is reassigned. -/
def Runner.run (r : Runner) (env : RunEnv) : RunResult :=
  let batches := assembleBatches r.config.batch_size r.dataset
  let st0 : SendState := ⟨r.execution_times, [], [], 0, 0⟩
  let sent := sendAll r.config env batches st0
  let total := r.dataset.length
  let fr0 : FRState := ⟨ThreadSafeCounter.init 0, ThreadSafeCounter.init 0, ⟨0, 0⟩, []⟩
  let fr1 := processFutures total (sent.2.map FutureOutcome.value) fr0
  let fr2 := if r.config.async_req then drainAll env sent.1.queue fr1 else fr1
  { ret := sent.1.times
    success := fr2.success.value
    fail := fr2.fail.value
    lines := fr2.lines
    outcomes := sent.2
    handles := sent.1.queue
    log := sent.1.log
    runnerAfter := { r with execution_times := [] } }

/-- Number of async submissions whose client call returned None (immediate
submission failures), read off the recorded future values. -/
def immediateFailures (res : RunResult) : Nat :=
  res.outcomes.countP (fun o => o == some false)

/-- Control location of the collector thread running get_async_result
(runner.py lines 64-75): at the top of the while loop (about to test the
completed event), blocked inside async_reqs.get(), or returned. -/
inductive CollectorPC where
  | loopHead
  | waiting
  | exited
  deriving DecidableEq

/-- Joint state of the collector thread, the async_reqs queue and the
completed event.  resolvedList records, in order, the handles on which
get_result has been called; success and fail are the collector counter
contributions. -/
structure CollectorState where
  pc : CollectorPC
  queue : List Nat
  signal : Bool
  resolvedList : List Nat
  success : Nat
  fail : Nat
  deriving DecidableEq

/-- Events of the concurrent system around the collector: a producer puts a
handle into the queue (send_batch, runner.py line 46), the orchestrator sets
the completed event (line 122), or the collector thread takes a step. -/
inductive CEvent where
  | enqueue (h : Nat)
  | setSignal
  | step
  deriving DecidableEq

/-- One transition (runner.py lines 65-74).  At the loop head the collector
tests completed.is_set() and either returns or moves into async_reqs.get();
inside get it blocks while the queue is empty, otherwise it removes the front
handle and resolves it, then returns to the loop head.  After the while loop
has exited every step is a no-op. -/
def cstep (env : RunEnv) (s : CollectorState) : CEvent → CollectorState
  | CEvent.enqueue h => { s with queue := s.queue ++ [h] }
  | CEvent.setSignal => { s with signal := true }
  | CEvent.step =>
    match s.pc with
    | CollectorPC.exited => s
    | CollectorPC.loopHead =>
      if s.signal then { s with pc := CollectorPC.exited }
      else { s with pc := CollectorPC.waiting }
    | CollectorPC.waiting =>
      match s.queue with
      | [] => s
      | h :: rest =>
        if env.getResultOk h then
          { s with
            pc := CollectorPC.loopHead
            queue := rest
            resolvedList := s.resolvedList ++ [h]
            success := s.success + 1 }
        else
          { s with
            pc := CollectorPC.loopHead
            queue := rest
            resolvedList := s.resolvedList ++ [h]
            fail := s.fail + 1 }

/-- Execution of a finite event trace. -/
def cexec (env : RunEnv) (s : CollectorState) : List CEvent → CollectorState
  | [] => s
  | e :: es => cexec env (cstep env s e) es

/-- Initial collector state: thread started before any batch is submitted
(runner.py line 75), queue empty, event clear. -/
def cinit : CollectorState :=
  ⟨CollectorPC.loopHead, [], false, [], 0, 0⟩

/-- Handles appearing in the enqueue events of a trace, in order. -/
def enqueuedOf (tr : List CEvent) : List Nat :=
  tr.filterMap (fun e =>
    match e with
    | CEvent.enqueue h => some h
    | _ => none)

/-- Modelled from the spec, for comparison with the source constructor: the
spec requires RunnerConfig inputs batchSize (at least 1) and workerCount (at
least 1) to be validated at construction, raising a ConfigurationFailure
before any dispatch on invalid values. -/
inductive ConfigurationFailure where
  | invalidBatchSize
  | invalidWorkers
  deriving DecidableEq

/-- Modelled from the spec (refinement comparison for the validation claim):
a constructor that fails fast on batchSize below 1 or workerCount below 1,
as the spec prescribes.  The source constructor RunnerConfig.init is total
and performs no such check. -/
def specConfigInit (batch_size : Int) (async_req : Bool) (workers : Int) :
    Except ConfigurationFailure RunnerConfig :=
  if batch_size < 1 then Except.error ConfigurationFailure.invalidBatchSize
  else if workers < 1 then Except.error ConfigurationFailure.invalidWorkers
  else Except.ok ⟨batch_size, async_req, workers⟩

/-- Modelled from the spec (refinement comparison for the progress claim):
the spec reporter accumulates the number of ITEMS completed since the last
report (the batch sizes of the completed batches, fed in completion order),
and whenever that count divided by total exceeds 0.1 emits one line with the
cumulative percentage completed and resets the count. -/
def specProgressLines (total : Nat) : List Nat → Nat → Nat → List Nat
  | [], _, _ => []
  | k :: ks, since, done =>
    if 10 * (since + k) > total then
      (100 * (done + k) / total) :: specProgressLines total ks 0 (done + k)
    else
      specProgressLines total ks (since + k) (done + k)

/-- Closed-form companion of the progress loop: the lines printed by n
successive completions starting from item_cnt i and batch_group_cnt g. -/
def linesFrom (total : Nat) : Nat → Nat → Nat → List Nat
  | 0, _, _ => []
  | n + 1, i, g =>
    if 10 * (i + 1) > total then
      ((i + 1) * g * 100 / total) :: linesFrom total n 0 (g + 1)
    else
      linesFrom total n (i + 1) g

/-- A concrete environment: every sync call returns a result, every async
call returns handle 7, every resolution succeeds, and the clock advances one
unit per reading. -/
def envW : RunEnv :=
  ⟨fun _ _ => some 0, fun _ _ => some 7, fun _ => true, fun n => (n : Int)⟩

/-- Concrete async runner: one sample, batch size one. -/
def rAsync1 : Runner := ⟨⟨1, true, 1⟩, [0], []⟩

/-- Concrete sync runner: ten samples, batch size one. -/
def rSync10 : Runner := ⟨⟨1, false, 1⟩, [0, 1, 2, 3, 4, 5, 6, 7, 8, 9], []⟩

/-- Concrete sync runner: ten samples, batch size ten. -/
def rSyncOne : Runner := ⟨⟨10, false, 1⟩, [0, 1, 2, 3, 4, 5, 6, 7, 8, 9], []⟩

theorem gather_join (bs : Int) :
    ∀ (samples : List Sample) (acc : Batch), (gather bs samples acc).flatten = acc ++ samples := by
  intro samples
  induction samples with
  | nil =>
    intro acc
    simp only [gather]
    split
    · simp
    · next h =>
      have hacc : acc = [] := List.length_eq_zero.mp (by omega)
      simp [hacc]
  | cons s rest ih =>
    intro acc
    simp only [gather]
    split
    · simp [ih]
    · rw [ih]
      simp

theorem gather_nonempty (bs : Int) :
    ∀ (samples : List Sample) (acc : Batch), ∀ b ∈ gather bs samples acc, b ≠ [] := by
  intro samples
  induction samples with
  | nil =>
    intro acc b hb
    simp only [gather] at hb
    split at hb
    · next h =>
      rcases List.mem_singleton.mp hb with rfl
      exact List.ne_nil_of_length_pos h
    · simp at hb
  | cons s rest ih =>
    intro acc b hb
    simp only [gather] at hb
    split at hb
    · rcases List.mem_cons.mp hb with rfl | hb2
      · simp
      · exact ih [] b hb2
    · exact ih (acc ++ [s]) b hb

theorem dropLast_cons_subset {α : Type} (a : α) (l : List α) :
    (a :: l).dropLast ⊆ a :: l.dropLast := by
  cases l with
  | nil => simp
  | cons b t =>
    rw [List.dropLast_cons₂]
    intro x hx
    exact hx

theorem gather_sizes (bs : Int) (hbs : 1 ≤ bs) :
    ∀ (samples : List Sample) (acc : Batch), (acc.length : Int) < bs →
      (∀ b ∈ gather bs samples acc, 1 ≤ b.length ∧ (b.length : Int) ≤ bs) ∧
      (∀ b ∈ (gather bs samples acc).dropLast, (b.length : Int) = bs) := by
  intro samples
  induction samples with
  | nil =>
    intro acc hacc
    constructor
    · intro b hb
      simp only [gather] at hb
      split at hb
      · next h =>
        rcases List.mem_singleton.mp hb with rfl
        exact ⟨h, le_of_lt hacc⟩
      · simp at hb
    · intro b hb
      simp only [gather] at hb
      split at hb
      · simp at hb
      · simp at hb
  | cons s rest ih =>
    intro acc hacc
    simp only [gather]
    split
    · next hfull =>
      have hlen : ((acc ++ [s]).length : Int) = bs := hfull
      have h0 : (0 : Int) < bs := by omega
      have ihe := ih [] (by simpa using h0)
      constructor
      · intro b hb
        rcases List.mem_cons.mp hb with rfl | hb2
        · constructor
          · simp
          · omega
        · exact ihe.1 b hb2
      · intro b hb
        have hb3 := dropLast_cons_subset _ _ hb
        rcases List.mem_cons.mp hb3 with rfl | hb4
        · exact hlen
        · exact ihe.2 b hb4
    · next hne =>
      have hlt : ((acc ++ [s]).length : Int) < bs := by
        simp only [List.length_append, List.length_singleton] at hne ⊢
        omega
      exact ih (acc ++ [s]) hlt

theorem gather_count (bs : Int) (hbs : 1 ≤ bs) :
    ∀ (samples : List Sample) (acc : Batch), (acc.length : Int) < bs →
      (gather bs samples acc).length
        = (acc.length + samples.length + (bs.toNat - 1)) / bs.toNat := by
  intro samples
  induction samples with
  | nil =>
    intro acc hacc
    simp only [gather, List.length_nil, Nat.add_zero]
    split
    · next hpos =>
      simp only [List.length_singleton]
      have h1 : 1 * bs.toNat ≤ acc.length + (bs.toNat - 1) := by omega
      have h2 : acc.length + (bs.toNat - 1) < (1 + 1) * bs.toNat := by omega
      rw [Nat.div_eq_of_lt_le h1 h2]
    · next hpos =>
      simp only [List.length_nil]
      rw [Nat.div_eq_of_lt (by omega)]
  | cons s rest ih =>
    intro acc hacc
    have hlenA : (acc ++ [s]).length = acc.length + 1 := by simp
    simp only [gather]
    split
    · next hfull =>
      have hlen : acc.length + 1 = bs.toNat := by omega
      have ihe := ih [] (by simp only [List.length_nil, Nat.cast_zero]; omega)
      simp only [List.length_cons, ihe, List.length_nil]
      rw [show acc.length + (rest.length + 1) + (bs.toNat - 1)
            = (0 + rest.length + (bs.toNat - 1)) + bs.toNat from by omega]
      rw [Nat.add_div_right _ (by omega)]
    · next hne =>
      have hlt : ((acc ++ [s]).length : Int) < bs := by omega
      rw [ih (acc ++ [s]) hlt]
      simp only [List.length_cons]
      congr 1
      omega

theorem send_batch_empty (cfg : RunnerConfig) (env : RunEnv) (st : SendState) :
    send_batch cfg env st [] =
      ({ st with log := st.log ++ [LogEvent.warnEmptyBatch] }, none) := rfl

theorem send_batch_spec (cfg : RunnerConfig) (env : RunEnv) (st : SendState) (b : Batch)
    (hb : b ≠ []) :
    send_batch cfg env st b =
      (⟨st.times ++ [env.time (st.tick + 1) - env.time st.tick],
        if cfg.async_req then st.queue ++ (env.inferBatchAsync st.idx b).toList else st.queue,
        st.log ++ (if cfg.async_req then
                     (if (env.inferBatchAsync st.idx b).isSome then [] else [LogEvent.warnFailedAsync])
                   else
                     (if (env.inferBatch st.idx b).isSome then [] else [LogEvent.infoFailedSync])),
        st.tick + 2, st.idx + 1⟩,
       some (if cfg.async_req then (env.inferBatchAsync st.idx b).isSome
             else (env.inferBatch st.idx b).isSome)) := by
  have h0 : ¬ b.length = 0 := fun h => hb (List.length_eq_zero.mp h)
  cases hA : cfg.async_req
  · cases hc : env.inferBatch st.idx b <;> simp [send_batch, h0, hA, hc]
  · cases hc : env.inferBatchAsync st.idx b <;> simp [send_batch, h0, hA, hc]

theorem sendAll_outs_length (cfg : RunnerConfig) (env : RunEnv) :
    ∀ (batches : List Batch) (st : SendState),
      ((sendAll cfg env batches st).2).length = batches.length := by
  intro batches
  induction batches with
  | nil => intro st; rfl
  | cons b rest ih =>
    intro st
    simp only [sendAll, List.length_cons]
    rw [ih]

theorem sendAll_times_length (cfg : RunnerConfig) (env : RunEnv) :
    ∀ (batches : List Batch) (st : SendState), (∀ b ∈ batches, b ≠ []) →
      ((sendAll cfg env batches st).1).times.length = st.times.length + batches.length := by
  intro batches
  induction batches with
  | nil => intro st _; simp [sendAll]
  | cons b rest ih =>
    intro st hne
    simp only [sendAll]
    rw [send_batch_spec cfg env st b (hne b (List.mem_cons_self b rest))]
    rw [ih _ (fun x hx => hne x (List.mem_cons_of_mem b hx))]
    simp only [List.length_append, List.length_singleton, List.length_cons, List.length_nil]
    omega

theorem sendAll_sync_queue (cfg : RunnerConfig) (env : RunEnv) (hA : cfg.async_req = false) :
    ∀ (batches : List Batch) (st : SendState),
      ((sendAll cfg env batches st).1).queue = st.queue := by
  intro batches
  induction batches with
  | nil => intro st; rfl
  | cons b rest ih =>
    intro st
    by_cases hb : b = []
    · subst hb
      simp only [sendAll, send_batch_empty]
      rw [ih]
    · simp only [sendAll]
      rw [send_batch_spec cfg env st b hb, ih]
      simp [hA]

theorem send_batch_queue (cfg : RunnerConfig) (env : RunEnv) (st : SendState) (b : Batch)
    (hb : b ≠ []) :
    (send_batch cfg env st b).1.queue =
      if cfg.async_req then st.queue ++ (env.inferBatchAsync st.idx b).toList else st.queue := by
  rw [send_batch_spec cfg env st b hb]

theorem send_batch_out (cfg : RunnerConfig) (env : RunEnv) (st : SendState) (b : Batch)
    (hb : b ≠ []) :
    (send_batch cfg env st b).2 =
      some (if cfg.async_req then (env.inferBatchAsync st.idx b).isSome
            else (env.inferBatch st.idx b).isSome) := by
  rw [send_batch_spec cfg env st b hb]

theorem sendAll_async_queue_count (cfg : RunnerConfig) (env : RunEnv)
    (hA : cfg.async_req = true) :
    ∀ (batches : List Batch) (st : SendState), (∀ b ∈ batches, b ≠ []) →
      ((sendAll cfg env batches st).1).queue.length
          = st.queue.length + ((sendAll cfg env batches st).2).countP (fun o => o == some true) ∧
      ((sendAll cfg env batches st).2).countP (fun o => o == some true)
          + ((sendAll cfg env batches st).2).countP (fun o => o == some false)
          = batches.length := by
  intro batches
  induction batches with
  | nil => intro st _; simp [sendAll]
  | cons b rest ih =>
    intro st hne
    have hb := hne b (List.mem_cons_self b rest)
    have hrest : ∀ x ∈ rest, x ≠ [] := fun x hx => hne x (List.mem_cons_of_mem b hx)
    simp only [sendAll]
    have ihe := ih (send_batch cfg env st b).1 hrest
    rw [List.countP_cons, List.countP_cons, send_batch_out cfg env st b hb]
    rw [ihe.1, send_batch_queue cfg env st b hb]
    have h2 := ihe.2
    cases hc : env.inferBatchAsync st.idx b <;>
      simp only [hc, hA, Option.toList, Option.isSome, if_true, List.length_append,
        List.length_cons, List.length_nil] <;> constructor <;> simp <;> omega

theorem sendAll_times_nonneg (cfg : RunnerConfig) (env : RunEnv) (hM : Monotone env.time) :
    ∀ (batches : List Batch) (st : SendState), (∀ d ∈ st.times, 0 ≤ d) →
      ∀ d ∈ ((sendAll cfg env batches st).1).times, 0 ≤ d := by
  intro batches
  induction batches with
  | nil => intro st h; exact h
  | cons b rest ih =>
    intro st h
    by_cases hb : b = []
    · subst hb
      simp only [sendAll, send_batch_empty]
      exact ih _ h
    · simp only [sendAll]
      apply ih
      rw [send_batch_spec cfg env st b hb]
      intro d hd
      rcases List.mem_append.mp hd with hd1 | hd2
      · exact h d hd1
      · rcases List.mem_singleton.mp hd2 with rfl
        have := hM (Nat.le_add_right st.tick 1)
        omega

theorem send_batch_client_indep (cfg : RunnerConfig) (env env' : RunEnv)
    (hi : env'.inferBatch = env.inferBatch) (ha : env'.inferBatchAsync = env.inferBatchAsync)
    (ht : env'.time = env.time) (st : SendState) (b : Batch) :
    send_batch cfg env' st b = send_batch cfg env st b := by
  simp only [send_batch, hi, ha, ht]

theorem sendAll_client_indep (cfg : RunnerConfig) (env env' : RunEnv)
    (hi : env'.inferBatch = env.inferBatch) (ha : env'.inferBatchAsync = env.inferBatchAsync)
    (ht : env'.time = env.time) :
    ∀ (batches : List Batch) (st : SendState),
      sendAll cfg env' batches st = sendAll cfg env batches st := by
  intro batches
  induction batches with
  | nil => intro st; rfl
  | cons b rest ih =>
    intro st
    simp only [sendAll, send_batch_client_indep cfg env env' hi ha ht, ih]

theorem send_batch_times_shift (cfg : RunnerConfig) (env : RunEnv)
    (ts : List Int) (q : List Nat) (lg : List LogEvent) (tk ix : Nat) (b : Batch) :
    send_batch cfg env ⟨ts, q, lg, tk, ix⟩ b =
      (⟨ts ++ (send_batch cfg env ⟨[], q, lg, tk, ix⟩ b).1.times,
        (send_batch cfg env ⟨[], q, lg, tk, ix⟩ b).1.queue,
        (send_batch cfg env ⟨[], q, lg, tk, ix⟩ b).1.log,
        (send_batch cfg env ⟨[], q, lg, tk, ix⟩ b).1.tick,
        (send_batch cfg env ⟨[], q, lg, tk, ix⟩ b).1.idx⟩,
       (send_batch cfg env ⟨[], q, lg, tk, ix⟩ b).2) := by
  by_cases hb : b = []
  · subst hb
    simp [send_batch_empty]
  · rw [send_batch_spec cfg env _ b hb, send_batch_spec cfg env _ b hb]
    simp

theorem sendAll_times_shift (cfg : RunnerConfig) (env : RunEnv) :
    ∀ (batches : List Batch) (ts : List Int) (q : List Nat) (lg : List LogEvent) (tk ix : Nat),
      sendAll cfg env batches ⟨ts, q, lg, tk, ix⟩ =
        (⟨ts ++ (sendAll cfg env batches ⟨[], q, lg, tk, ix⟩).1.times,
          (sendAll cfg env batches ⟨[], q, lg, tk, ix⟩).1.queue,
          (sendAll cfg env batches ⟨[], q, lg, tk, ix⟩).1.log,
          (sendAll cfg env batches ⟨[], q, lg, tk, ix⟩).1.tick,
          (sendAll cfg env batches ⟨[], q, lg, tk, ix⟩).1.idx⟩,
         (sendAll cfg env batches ⟨[], q, lg, tk, ix⟩).2) := by
  intro batches
  induction batches with
  | nil => intro ts q lg tk ix; simp [sendAll]
  | cons b rest ih =>
    intro ts q lg tk ix
    simp only [sendAll]
    rw [send_batch_times_shift cfg env ts q lg tk ix b]
    rcases hsb : send_batch cfg env ⟨[], q, lg, tk, ix⟩ b with ⟨⟨ts1, q1, lg1, tk1, ix1⟩, o1⟩
    simp only
    rw [ih (ts ++ ts1) q1 lg1 tk1 ix1, ih ts1 q1 lg1 tk1 ix1]
    simp

/-- Which counter one future-result call bumps, before the finally block:
only a send_batch return of True counts as success. -/
def frTarget (o : FutureOutcome) (st : FRState) : FRState :=
  match o with
  | FutureOutcome.value (some true) => { st with success := st.success.increment 1 }
  | _ => { st with fail := st.fail.increment 1 }

theorem future_result_eq (t : Nat) (o : FutureOutcome) (st : FRState) :
    future_result t o st = Except.ok (progressStep t (frTarget o st)) := by
  cases o with
  | value r =>
    cases r with
    | none => rfl
    | some b => cases b <;> rfl
  | raised e => cases e <;> rfl

theorem progressStep_success (t : Nat) (st : FRState) :
    (progressStep t st).success = st.success := by
  simp only [progressStep]
  split <;> rfl

theorem progressStep_fail (t : Nat) (st : FRState) :
    (progressStep t st).fail = st.fail := by
  simp only [progressStep]
  split <;> rfl

theorem frTarget_sum (o : FutureOutcome) (st : FRState) :
    (frTarget o st).success._counter + (frTarget o st).fail._counter
      = st.success._counter + st.fail._counter + 1 := by
  cases o with
  | value r =>
    cases r with
    | none => simp [frTarget, ThreadSafeCounter.increment]; omega
    | some b => cases b <;> simp [frTarget, ThreadSafeCounter.increment] <;> omega
  | raised e => simp [frTarget, ThreadSafeCounter.increment]; omega

theorem frTarget_prog (o : FutureOutcome) (st : FRState) :
    (frTarget o st).prog = st.prog := by
  cases o with
  | value r =>
    cases r with
    | none => rfl
    | some b => cases b <;> rfl
  | raised e => rfl

theorem frTarget_lines (o : FutureOutcome) (st : FRState) :
    (frTarget o st).lines = st.lines := by
  cases o with
  | value r =>
    cases r with
    | none => rfl
    | some b => cases b <;> rfl
  | raised e => rfl

theorem processFutures_sum (t : Nat) :
    ∀ (os : List FutureOutcome) (st : FRState),
      (processFutures t os st).success._counter + (processFutures t os st).fail._counter
        = st.success._counter + st.fail._counter + os.length := by
  intro os
  induction os with
  | nil => intro st; simp [processFutures]
  | cons o rest ih =>
    intro st
    simp only [processFutures, future_result_eq]
    rw [ih]
    have hs := progressStep_success t (frTarget o st)
    have hf := progressStep_fail t (frTarget o st)
    rw [hs, hf, List.length_cons]
    have := frTarget_sum o st
    omega

theorem drainAll_sum (env : RunEnv) :
    ∀ (hs : List Nat) (st : FRState),
      (drainAll env hs st).success._counter + (drainAll env hs st).fail._counter
        = st.success._counter + st.fail._counter + hs.length := by
  intro hs
  induction hs with
  | nil => intro st; simp [drainAll]
  | cons h rest ih =>
    intro st
    simp only [drainAll]
    split <;> rw [ih] <;> simp [ThreadSafeCounter.increment] <;> omega

theorem drainAll_lines (env : RunEnv) :
    ∀ (hs : List Nat) (st : FRState), (drainAll env hs st).lines = st.lines := by
  intro hs
  induction hs with
  | nil => intro st; rfl
  | cons h rest ih =>
    intro st
    simp only [drainAll]
    split <;> rw [ih]

theorem processFutures_lines (t : Nat) :
    ∀ (os : List FutureOutcome) (st : FRState),
      (processFutures t os st).lines
        = st.lines ++ linesFrom t os.length st.prog.item_cnt st.prog.batch_group_cnt := by
  intro os
  induction os with
  | nil => intro st; simp [processFutures, linesFrom]
  | cons o rest ih =>
    intro st
    simp only [processFutures, future_result_eq]
    rw [ih]
    unfold progressStep
    rw [frTarget_prog, frTarget_lines]
    simp only [List.length_cons, linesFrom]
    split
    · simp
    · simp

theorem linesFrom_closed (t : Nat) :
    ∀ (n i g : Nat), i < t / 10 + 1 →
      linesFrom t n i g
        = (List.range ((i + n) / (t / 10 + 1))).map
            (fun k => (t / 10 + 1) * (g + k) * 100 / t) := by
  intro n
  induction n with
  | zero =>
    intro i g hi
    have : (i + 0) / (t / 10 + 1) = 0 := Nat.div_eq_of_lt (by omega)
    rw [this]
    simp [linesFrom]
  | succ n ih =>
    intro i g hi
    simp only [linesFrom]
    split
    · next hcross =>
      have hstep : i + 1 = t / 10 + 1 := by omega
      rw [ih 0 (g + 1) (by omega)]
      have hq : (i + (n + 1)) / (t / 10 + 1) = (0 + n) / (t / 10 + 1) + 1 := by
        rw [show i + (n + 1) = (0 + n) + (t / 10 + 1) from by omega]
        rw [Nat.add_div_right _ (by omega)]
      rw [hq, List.range_succ_eq_map]
      simp only [List.map_cons, List.map_map]
      congr 1
      · rw [hstep]
        simp
      · apply List.map_congr_left
        intro k hk
        simp only [Function.comp_apply]
        rw [show g + 1 + k = g + Nat.succ k from by omega]
    · next hcross =>
      have hlt : i + 1 < t / 10 + 1 := by omega
      rw [ih (i + 1) g hlt]
      have : i + 1 + n = i + (n + 1) := by omega
      rw [this]

theorem cexec_append (env : RunEnv) :
    ∀ (tr tr2 : List CEvent) (s : CollectorState),
      cexec env s (tr ++ tr2) = cexec env (cexec env s tr) tr2 := by
  intro tr
  induction tr with
  | nil => intro tr2 s; rfl
  | cons e es ih => intro tr2 s; simp only [List.cons_append, cexec]; exact ih tr2 _

theorem cexec_fifo (env : RunEnv) :
    ∀ (tr : List CEvent) (s : CollectorState),
      (cexec env s tr).resolvedList ++ (cexec env s tr).queue
        = s.resolvedList ++ s.queue ++ enqueuedOf tr := by
  intro tr
  induction tr with
  | nil => intro s; simp [cexec, enqueuedOf]
  | cons e es ih =>
    intro s
    simp only [cexec]
    rw [ih]
    cases e with
    | enqueue h => simp [cstep, enqueuedOf, List.filterMap_cons]
    | setSignal => simp [cstep, enqueuedOf, List.filterMap_cons]
    | step =>
      have he : enqueuedOf (CEvent.step :: es) = enqueuedOf es := by
        simp [enqueuedOf, List.filterMap_cons]
      rw [he]
      cases hpc : s.pc with
      | exited => simp [cstep, hpc]
      | loopHead =>
        by_cases hs : s.signal = true <;> simp [cstep, hpc, hs]
      | waiting =>
        cases hq : s.queue with
        | nil => simp [cstep, hpc, hq]
        | cons h rest =>
          by_cases hr : env.getResultOk h = true <;> simp [cstep, hpc, hq, hr]

theorem cexec_exited (env : RunEnv) :
    ∀ (tr : List CEvent) (s : CollectorState), s.pc = CollectorPC.exited →
      (cexec env s tr).pc = CollectorPC.exited ∧
      (cexec env s tr).resolvedList = s.resolvedList := by
  intro tr
  induction tr with
  | nil => intro s hs; exact ⟨hs, rfl⟩
  | cons e es ih =>
    intro s hs
    simp only [cexec]
    cases e with
    | enqueue h => exact ih _ hs
    | setSignal => exact ih _ hs
    | step =>
      have : cstep env s CEvent.step = s := by
        simp [cstep, hs]
      rw [this]
      exact ih _ hs

theorem run_shift (r : Runner) (env : RunEnv) :
    Runner.run r env =
      { Runner.run { r with execution_times := [] } env with
        ret := r.execution_times
          ++ (Runner.run { r with execution_times := [] } env).ret,
        runnerAfter := { r with execution_times := [] } } := by
  rcases r with ⟨cfg, ds, ts⟩
  simp only [Runner.run]
  rw [sendAll_times_shift cfg env (assembleBatches cfg.batch_size ds) ts [] [] 0 0]

theorem run_empty (cfg : RunnerConfig) (env : RunEnv) :
    Runner.run ⟨cfg, [], []⟩ env =
      { ret := [], success := 0, fail := 0, lines := [], outcomes := [], handles := [],
        log := [], runnerAfter := ⟨cfg, [], []⟩ } := by
  rcases cfg with ⟨b, a, w⟩
  cases a <;> rfl

/-- C2: for every finite sample sequence of length N and every batch size B with
B at least 1, the runner forms exactly ceil(N/B) = (N + B - 1) / B batches; every
batch except possibly the last has size B, every batch has size between 1 and B
(so none is empty), the batch sizes sum to N, and when N = 0 zero tasks are
submitted and run returns an empty result immediately. -/
theorem claimC2_batching (samples : List Sample) (bs : Int) (cfg : RunnerConfig)
    (env : RunEnv) (hbs : 1 ≤ bs) :
    (assembleBatches bs samples).length = (samples.length + bs.toNat - 1) / bs.toNat ∧
    (∀ b ∈ (assembleBatches bs samples).dropLast, b.length = bs.toNat) ∧
    (∀ b ∈ assembleBatches bs samples, 1 ≤ b.length ∧ b.length ≤ bs.toNat) ∧
    ((assembleBatches bs samples).map List.length).sum = samples.length ∧
    (samples = [] →
      assembleBatches bs samples = [] ∧
      (Runner.run ⟨cfg, [], []⟩ env).outcomes = [] ∧
      (Runner.run ⟨cfg, [], []⟩ env).ret = [] ∧
      (Runner.run ⟨cfg, [], []⟩ env).success = 0 ∧
      (Runner.run ⟨cfg, [], []⟩ env).fail = 0) := by
  have hacc : ((List.length ([] : Batch) : Nat) : Int) < bs := by
    simp only [List.length_nil, Nat.cast_zero]
    omega
  have hsz := gather_sizes bs hbs samples [] hacc
  refine ⟨?_, ?_, ?_, ?_, ?_⟩
  · have hc := gather_count bs hbs samples [] hacc
    simp only [List.length_nil, Nat.zero_add] at hc
    rw [assembleBatches, hc]
    congr 1
    omega
  · intro b hb
    have := hsz.2 b hb
    omega
  · intro b hb
    have := hsz.1 b hb
    omega
  · have hj := gather_join bs samples []
    simp only [List.nil_append] at hj
    rw [assembleBatches, ← List.length_flatten, hj]
  · intro hs
    subst hs
    rw [run_empty cfg env]
    exact ⟨rfl, rfl, rfl, rfl, rfl⟩

/-- Witness for claimC2_batching at samples of length 4 and batch size 3. -/
theorem claimC2_batching_witness :
    (1 : Int) ≤ 3 ∧
    ((assembleBatches 3 [1, 2, 3, 4]).length = (4 + (3 : Int).toNat - 1) / (3 : Int).toNat ∧
     (∀ b ∈ (assembleBatches 3 [1, 2, 3, 4]).dropLast, b.length = (3 : Int).toNat) ∧
     (∀ b ∈ assembleBatches 3 [1, 2, 3, 4], 1 ≤ b.length ∧ b.length ≤ (3 : Int).toNat) ∧
     ((assembleBatches 3 [1, 2, 3, 4]).map List.length).sum = 4 ∧
     ([1, 2, 3, 4] = ([] : List Sample) →
       assembleBatches 3 [1, 2, 3, 4] = [] ∧
       (Runner.run ⟨⟨3, false, 1⟩, [], []⟩ envW).outcomes = [] ∧
       (Runner.run ⟨⟨3, false, 1⟩, [], []⟩ envW).ret = [] ∧
       (Runner.run ⟨⟨3, false, 1⟩, [], []⟩ envW).success = 0 ∧
       (Runner.run ⟨⟨3, false, 1⟩, [], []⟩ envW).fail = 0)) :=
  ⟨by decide, claimC2_batching [1, 2, 3, 4] 3 ⟨3, false, 1⟩ envW (by decide)⟩

/-- C8: an empty batch passed directly to send_batch logs a warning and is a
no-op: the Python return value is None (no outcome is recorded, hence the
success and failure counters, which are only ever mutated for recorded
outcomes, are untouched), execution_times gets no entry, the queue gets no
handle, and the clock is never read. -/
theorem claimC8_empty_batch (cfg : RunnerConfig) (env : RunEnv) (st : SendState) :
    (send_batch cfg env st []).2 = none ∧
    (send_batch cfg env st []).1.times = st.times ∧
    (send_batch cfg env st []).1.queue = st.queue ∧
    (send_batch cfg env st []).1.tick = st.tick ∧
    (send_batch cfg env st []).1.idx = st.idx ∧
    (send_batch cfg env st []).1.log = st.log ++ [LogEvent.warnEmptyBatch] :=
  ⟨rfl, rfl, rfl, rfl, rfl, rfl⟩

/-- C9: run returns the execution times accumulated during the call (appended
after whatever the attribute held at entry), resets the attribute to the empty
list, and a subsequent run on the returned runner behaves exactly like a run
of the runner with an empty execution_times attribute: durations are never
retained across runs. -/
theorem claimC9_times_cleared (r : Runner) (env env2 : RunEnv) :
    (Runner.run r env).runnerAfter.execution_times = [] ∧
    (Runner.run r env).ret
      = r.execution_times ++ (Runner.run { r with execution_times := [] } env).ret ∧
    Runner.run (Runner.run r env).runnerAfter env2
      = Runner.run { r with execution_times := [] } env2 := by
  refine ⟨rfl, ?_, rfl⟩
  rw [run_shift r env]

/-- C10: every Runner.run call builds its success and failure counters fresh
from ThreadSafeCounter at 0 (visible in the definition of Runner.run), so the
counts of a run do not depend on any state the runner carried in from earlier
runs: execution_times is the only runner attribute run reassigns (the runner
after the call is exactly the runner before it with execution_times cleared,
and no counter is reachable from it, Runner having no counter field), and the
counters, outcomes and handles of a run are unchanged under an arbitrary
prior execution_times value. -/
theorem claimC10_frame (r : Runner) (env : RunEnv) (xs : List Int) :
    (Runner.run r env).runnerAfter = { r with execution_times := [] } ∧
    (Runner.run { r with execution_times := xs } env).success = (Runner.run r env).success ∧
    (Runner.run { r with execution_times := xs } env).fail = (Runner.run r env).fail ∧
    (Runner.run { r with execution_times := xs } env).outcomes = (Runner.run r env).outcomes ∧
    (Runner.run { r with execution_times := xs } env).handles = (Runner.run r env).handles := by
  refine ⟨rfl, ?_, ?_, ?_, ?_⟩ <;>
    rw [run_shift { r with execution_times := xs } env, run_shift r env]

theorem gather_nonpos (bs : Int) (hbs : bs ≤ 0) :
    ∀ (samples : List Sample) (acc : Batch),
      gather bs samples acc = if acc ++ samples = [] then [] else [acc ++ samples] := by
  intro samples
  induction samples with
  | nil =>
    intro acc
    cases acc with
    | nil => rfl
    | cons x t => simp [gather]
  | cons s rest ih =>
    intro acc
    have hne : ¬ (((acc ++ [s]).length : Nat) : Int) = bs := by
      have : 1 ≤ (acc ++ [s]).length := by simp
      omega
    simp only [gather, if_neg hne]
    rw [ih (acc ++ [s])]
    simp

/-- C4 as stated fails on the code: RunnerConfig.__init__ performs no
validation, so constructing a config with batchSize 0 succeeds (the source
constructor is a total function into RunnerConfig and has no failure path,
unlike the spec-modelled validating constructor, which rejects it), and a run
with that config still dispatches a batch. -/
theorem claimC4_counterexample :
    RunnerConfig.init 0 false 1 = { batch_size := 0, async_req := false, workers := 1 } ∧
    specConfigInit 0 false 1 = Except.error ConfigurationFailure.invalidBatchSize ∧
    (Runner.run ⟨RunnerConfig.init 0 false 1, [0, 1], []⟩ envW).outcomes.length = 1 :=
  ⟨rfl, rfl, by decide⟩

/-- C4 amended: RunnerConfig construction stores its arguments unchanged and
always succeeds; no validation happens and nothing is raised.  In particular
batchSize 0 (or any nonpositive value) is accepted, and a later run with such
a config proceeds to dispatch, collecting every sample into one single batch. -/
theorem claimC4_config (batch_size : Int) (async_req : Bool) (workers : Int) :
    RunnerConfig.init batch_size async_req workers
      = { batch_size := batch_size, async_req := async_req, workers := workers } ∧
    ∀ samples : List Sample, batch_size ≤ 0 → samples ≠ [] →
      assembleBatches batch_size samples = [samples] := by
  refine ⟨rfl, ?_⟩
  intro samples hbs hs
  rw [assembleBatches, gather_nonpos batch_size hbs samples []]
  simp [hs]

/-- Witness for claimC4_config at batchSize 0 and a two-sample dataset. -/
theorem claimC4_config_witness :
    RunnerConfig.init 0 false 1 = { batch_size := 0, async_req := false, workers := 1 } ∧
    (0 : Int) ≤ 0 ∧ ([5, 6] : List Sample) ≠ [] ∧
    assembleBatches 0 [5, 6] = [[5, 6]] :=
  ⟨(claimC4_config 0 false 1).1, by decide, by decide,
    (claimC4_config 0 false 1).2 [5, 6] (by decide) (by decide)⟩

/-- C1 as stated fails on the code in async mode: one async batch whose
submission creates one pending handle and whose resolution succeeds ends the
run with successCount + failureCount = 2, not 1 = pending handles created (1)
plus immediate submission failures (0) — the outcome of the batch is counted
twice, once by the future callback at submission and once by the collector at
resolution. -/
theorem claimC1_counterexample :
    ¬ ((Runner.run rAsync1 envW).success + (Runner.run rAsync1 envW).fail
        = ((Runner.run rAsync1 envW).handles.length : Int)
          + (immediateFailures (Runner.run rAsync1 envW) : Int)) := by decide

/-- Initial future-result state of a run: both counters fresh at zero,
progress counters zero, no lines. -/
def fr0 : FRState :=
  ⟨ThreadSafeCounter.init 0, ThreadSafeCounter.init 0, ⟨0, 0⟩, []⟩

/-- The submission stage of Runner.run: all assembled batches sent from the
initial send state. -/
def runSent (cfg : RunnerConfig) (env : RunEnv) (ds : List Sample) (ts : List Int) :
    SendState × List (Option Bool) :=
  sendAll cfg env (assembleBatches cfg.batch_size ds) ⟨ts, [], [], 0, 0⟩

/-- The future-await stage of Runner.run. -/
def runFr1 (cfg : RunnerConfig) (env : RunEnv) (ds : List Sample) (ts : List Int) : FRState :=
  processFutures ds.length ((runSent cfg env ds ts).2.map FutureOutcome.value) fr0

/-- C1 amended: in sync mode successCount + failureCount equals the number of
batches submitted; in async mode (with the enqueued handles all resolved)
it equals the number of pending handles created plus the number of immediate
submission failures, PLUS once more the number of pending handles created:
each async batch is counted at submission (success if a handle was created,
failure otherwise) and each created handle is counted again at resolution. -/
theorem claimC1_run_counts (r : Runner) (env : RunEnv) :
    (r.config.async_req = false →
      (Runner.run r env).success + (Runner.run r env).fail
        = ((assembleBatches r.config.batch_size r.dataset).length : Int)) ∧
    (r.config.async_req = true →
      (Runner.run r env).success + (Runner.run r env).fail
        = (((Runner.run r env).handles.length + immediateFailures (Runner.run r env) : Nat) : Int)
          + ((Runner.run r env).handles.length : Int)) := by
  rcases r with ⟨⟨bsz, ar, wk⟩, ds, ts⟩
  have hne : ∀ b ∈ assembleBatches bsz ds, b ≠ [] := gather_nonempty bsz ds []
  have houts : (runSent ⟨bsz, ar, wk⟩ env ds ts).2.length = (assembleBatches bsz ds).length :=
    sendAll_outs_length ⟨bsz, ar, wk⟩ env (assembleBatches bsz ds) ⟨ts, [], [], 0, 0⟩
  have hsum := processFutures_sum ds.length
    ((runSent ⟨bsz, ar, wk⟩ env ds ts).2.map FutureOutcome.value) fr0
  simp only [List.length_map, houts] at hsum
  cases ar with
  | false =>
    refine ⟨fun _ => ?_, fun h => by simp at h⟩
    have hS : (Runner.run ⟨⟨bsz, false, wk⟩, ds, ts⟩ env).success
        = (runFr1 ⟨bsz, false, wk⟩ env ds ts).success._counter := rfl
    have hF : (Runner.run ⟨⟨bsz, false, wk⟩, ds, ts⟩ env).fail
        = (runFr1 ⟨bsz, false, wk⟩ env ds ts).fail._counter := rfl
    rw [hS, hF]
    have h0 : fr0.success._counter = 0 := rfl
    have h1 : fr0.fail._counter = 0 := rfl
    unfold runFr1
    dsimp only
    omega
  | true =>
    refine ⟨fun h => by simp at h, fun _ => ?_⟩
    have hq := sendAll_async_queue_count ⟨bsz, true, wk⟩ env rfl (assembleBatches bsz ds)
      ⟨ts, [], [], 0, 0⟩ hne
    have hd := drainAll_sum env ((runSent ⟨bsz, true, wk⟩ env ds ts).1.queue)
      (runFr1 ⟨bsz, true, wk⟩ env ds ts)
    have hS : (Runner.run ⟨⟨bsz, true, wk⟩, ds, ts⟩ env).success
        = (drainAll env ((runSent ⟨bsz, true, wk⟩ env ds ts).1.queue)
            (runFr1 ⟨bsz, true, wk⟩ env ds ts)).success._counter := rfl
    have hF : (Runner.run ⟨⟨bsz, true, wk⟩, ds, ts⟩ env).fail
        = (drainAll env ((runSent ⟨bsz, true, wk⟩ env ds ts).1.queue)
            (runFr1 ⟨bsz, true, wk⟩ env ds ts)).fail._counter := rfl
    have hH : (Runner.run ⟨⟨bsz, true, wk⟩, ds, ts⟩ env).handles
        = (runSent ⟨bsz, true, wk⟩ env ds ts).1.queue := rfl
    have hO : immediateFailures (Runner.run ⟨⟨bsz, true, wk⟩, ds, ts⟩ env)
        = ((runSent ⟨bsz, true, wk⟩ env ds ts).2).countP (fun o => o == some false) := rfl
    rw [hS, hF, hH, hO]
    have h0 : fr0.success._counter = 0 := rfl
    have h1 : fr0.fail._counter = 0 := rfl
    have hq1 : (runSent ⟨bsz, true, wk⟩ env ds ts).1.queue.length
        = ((runSent ⟨bsz, true, wk⟩ env ds ts).2).countP (fun o => o == some true) := by
      have := hq.1
      simpa [runSent] using this
    have hq2 : ((runSent ⟨bsz, true, wk⟩ env ds ts).2).countP (fun o => o == some true)
          + ((runSent ⟨bsz, true, wk⟩ env ds ts).2).countP (fun o => o == some false)
        = (assembleBatches bsz ds).length := by
      have := hq.2
      simpa [runSent] using this
    unfold runFr1 at hd ⊢
    omega

/-- Witness for claimC1_run_counts: a concrete sync run (ten batches) and a
concrete async run (one batch, one handle, zero immediate failures). -/
theorem claimC1_run_counts_witness :
    (rSync10.config.async_req = false ∧
      (Runner.run rSync10 envW).success + (Runner.run rSync10 envW).fail
        = ((assembleBatches rSync10.config.batch_size rSync10.dataset).length : Int)) ∧
    (rAsync1.config.async_req = true ∧
      (Runner.run rAsync1 envW).success + (Runner.run rAsync1 envW).fail
        = (((Runner.run rAsync1 envW).handles.length
              + immediateFailures (Runner.run rAsync1 envW) : Nat) : Int)
          + ((Runner.run rAsync1 envW).handles.length : Int)) :=
  ⟨⟨rfl, (claimC1_run_counts rSync10 envW).1 rfl⟩,
   ⟨rfl, (claimC1_run_counts rAsync1 envW).2 rfl⟩⟩

/-- C5 as stated fails on the code in two ways, both visible on concrete runs.
With ten samples at batch size one (total T = 10) the run emits the lines
0, 20, 40, 60, 80: the first line is emitted when 20 percent of the items are
already done yet prints 0 percent, so the lines do not report the cumulative
percentage completed, which the spec-modelled reporter computes as
20, 40, 60, 80, 100.  With ten samples in a single batch of ten, all ten
items complete at once, so the items-based policy of the claim would emit a
line (the spec-modelled reporter prints 100), but the code counts completed
futures, not items, and emits no line at all. -/
theorem claimC5_counterexample :
    (Runner.run rSync10 envW).lines = [0, 20, 40, 60, 80] ∧
    specProgressLines rSync10.dataset.length
        ((assembleBatches rSync10.config.batch_size rSync10.dataset).map List.length) 0 0
      = [20, 40, 60, 80, 100] ∧
    (Runner.run rSync10 envW).lines ≠
      specProgressLines rSync10.dataset.length
        ((assembleBatches rSync10.config.batch_size rSync10.dataset).map List.length) 0 0 ∧
    (Runner.run rSyncOne envW).lines = [] ∧
    specProgressLines rSyncOne.dataset.length
        ((assembleBatches rSyncOne.config.batch_size rSyncOne.dataset).map List.length) 0 0
      = [100] := by
  refine ⟨by decide, by decide, by decide, by decide, by decide⟩

/-- C5 amended: the reporter counts completed batch futures, not items.  Each
completion increments the running count; whenever count / total exceeds 0.1
exactly one line is emitted, printing int(count / total * reportIndex * 100)
with reportIndex starting at 0 and incremented after each report (one report
interval behind the cumulative percentage), and the count is reset.  Over a
whole run with n batch futures and total item count t, the emitted lines are
therefore exactly (t/10 + 1) * k * 100 / t for k = 0, 1, ..., and their
number is n / (t/10 + 1) (about ten only when n is close to t). -/
theorem claimC5_progress (r : Runner) (env : RunEnv) :
    (Runner.run r env).lines
      = (List.range ((assembleBatches r.config.batch_size r.dataset).length
            / (r.dataset.length / 10 + 1))).map
          (fun k => (r.dataset.length / 10 + 1) * k * 100 / r.dataset.length) := by
  rcases r with ⟨⟨bsz, ar, wk⟩, ds, ts⟩
  have houts : (runSent ⟨bsz, ar, wk⟩ env ds ts).2.length = (assembleBatches bsz ds).length :=
    sendAll_outs_length ⟨bsz, ar, wk⟩ env (assembleBatches bsz ds) ⟨ts, [], [], 0, 0⟩
  have hlines := processFutures_lines ds.length
    ((runSent ⟨bsz, ar, wk⟩ env ds ts).2.map FutureOutcome.value) fr0
  have hclosed := linesFrom_closed ds.length
    ((runSent ⟨bsz, ar, wk⟩ env ds ts).2.map FutureOutcome.value).length 0 0
    (by omega)
  have hL : (Runner.run ⟨⟨bsz, ar, wk⟩, ds, ts⟩ env).lines
      = (if ar then
          drainAll env ((runSent ⟨bsz, ar, wk⟩ env ds ts).1.queue)
            (runFr1 ⟨bsz, ar, wk⟩ env ds ts)
         else runFr1 ⟨bsz, ar, wk⟩ env ds ts).lines := by
    cases ar <;> rfl
  rw [hL]
  have hL2 : (if ar then
        drainAll env ((runSent ⟨bsz, ar, wk⟩ env ds ts).1.queue)
          (runFr1 ⟨bsz, ar, wk⟩ env ds ts)
       else runFr1 ⟨bsz, ar, wk⟩ env ds ts).lines
      = (runFr1 ⟨bsz, ar, wk⟩ env ds ts).lines := by
    cases ar
    · rfl
    · simp only [if_true]
      exact drainAll_lines env _ _
  rw [hL2]
  unfold runFr1
  rw [hlines]
  have hp : fr0.prog.item_cnt = 0 := rfl
  have hg : fr0.prog.batch_group_cnt = 0 := rfl
  have hl0 : fr0.lines = ([] : List Nat) := rfl
  rw [hp, hg, hl0] at *
  rw [hclosed]
  simp only [List.length_map, houts, List.nil_append, Nat.zero_add]

/-- C6: starting from a cleared execution_times attribute and a monotone
clock, the returned ExecutionTimes has exactly one entry per submission call
(every assembled batch is nonempty, so every dispatched batch performs one
submission call and appends one entry, in both modes), every recorded
duration is nonnegative, and the recorded durations are a function of the
submission calls alone: they are unchanged under any change of the
resolution oracle get_result, because each duration is measured around the
submission call, not the async resolution. -/
theorem claimC6_times (r : Runner) (env env2 : RunEnv)
    (h0 : r.execution_times = []) (hM : Monotone env.time)
    (hi : env2.inferBatch = env.inferBatch) (ha : env2.inferBatchAsync = env.inferBatchAsync)
    (ht : env2.time = env.time) :
    (Runner.run r env).ret.length
        = (assembleBatches r.config.batch_size r.dataset).length ∧
    (∀ d ∈ (Runner.run r env).ret, 0 ≤ d) ∧
    (Runner.run r env2).ret = (Runner.run r env).ret := by
  rcases r with ⟨⟨bsz, ar, wk⟩, ds, ts⟩
  simp only at h0
  subst h0
  have hne : ∀ b ∈ assembleBatches bsz ds, b ≠ [] := gather_nonempty bsz ds []
  have hret : (Runner.run ⟨⟨bsz, ar, wk⟩, ds, []⟩ env).ret
      = (runSent ⟨bsz, ar, wk⟩ env ds []).1.times := rfl
  have hret2 : (Runner.run ⟨⟨bsz, ar, wk⟩, ds, []⟩ env2).ret
      = (runSent ⟨bsz, ar, wk⟩ env2 ds []).1.times := rfl
  refine ⟨?_, ?_, ?_⟩
  · rw [hret]
    have := sendAll_times_length ⟨bsz, ar, wk⟩ env (assembleBatches bsz ds)
      ⟨[], [], [], 0, 0⟩ hne
    simpa [runSent] using this
  · rw [hret]
    exact sendAll_times_nonneg ⟨bsz, ar, wk⟩ env hM (assembleBatches bsz ds)
      ⟨[], [], [], 0, 0⟩ (by simp)
  · rw [hret, hret2]
    unfold runSent
    rw [sendAll_client_indep ⟨bsz, ar, wk⟩ env env2 hi ha ht]

/-- Witness for claimC6_times: the ten-batch sync run under the unit clock,
with the resolution oracle change taken to be trivial. -/
theorem claimC6_times_witness :
    rSync10.execution_times = [] ∧ Monotone envW.time ∧
    ((Runner.run rSync10 envW).ret.length
        = (assembleBatches rSync10.config.batch_size rSync10.dataset).length ∧
     (∀ d ∈ (Runner.run rSync10 envW).ret, 0 ≤ d) ∧
     (Runner.run rSync10 envW).ret = (Runner.run rSync10 envW).ret) :=
  ⟨rfl, fun _ _ h => Int.ofNat_le.mpr h,
    claimC6_times rSync10 envW envW rfl (fun _ _ h => Int.ofNat_le.mpr h) rfl rfl rfl⟩

/-- C7: whatever one future yields — a value, or a raised exception of any of
the kinds observable from Future.result (cancellation, timeout, any other
exception raised inside the dispatch task) — future_result returns normally
(the exception never propagates to the as_completed loop, the pool or the
other futures) and bumps the two counters by exactly one in total; when the
future raised, that one bump is on the failure counter. -/
theorem claimC7_task_failure (total : Nat) (o : FutureOutcome) (st : FRState) :
    (∃ st2, future_result total o st = Except.ok st2) ∧
    ∀ st2, future_result total o st = Except.ok st2 →
      st2.success.value + st2.fail.value = st.success.value + st.fail.value + 1 ∧
      ∀ e, o = FutureOutcome.raised e →
        st2.fail.value = st.fail.value + 1 ∧ st2.success.value = st.success.value := by
  refine ⟨⟨progressStep total (frTarget o st), future_result_eq total o st⟩, ?_⟩
  intro st2 h
  rw [future_result_eq total o st] at h
  have hst2 : st2 = progressStep total (frTarget o st) := by
    injection h with h2
    exact h2.symm
  subst hst2
  constructor
  · show (progressStep total (frTarget o st)).success._counter
        + (progressStep total (frTarget o st)).fail._counter = _
    rw [progressStep_success, progressStep_fail]
    exact frTarget_sum o st
  · intro e he
    subst he
    show (progressStep total (frTarget (FutureOutcome.raised e) st)).fail._counter
          = st.fail._counter + 1 ∧
        (progressStep total (frTarget (FutureOutcome.raised e) st)).success._counter
          = st.success._counter
    rw [progressStep_success, progressStep_fail]
    exact ⟨rfl, rfl⟩

/-- Concrete future-result state for the C7 witness. -/
def frW : FRState := ⟨⟨0⟩, ⟨0⟩, ⟨0, 0⟩, []⟩

/-- The state after feeding one timed-out future to future_result at total 30. -/
def frW1 : FRState := ⟨⟨0⟩, ⟨1⟩, ⟨1, 0⟩, []⟩

/-- Witness for claimC7_task_failure: a timeout raised by one future is
caught and counted as exactly one failure. -/
theorem claimC7_task_failure_witness :
    frW1.fail.value = frW.fail.value + 1 ∧ frW1.success.value = frW.success.value :=
  ((claimC7_task_failure 30 (FutureOutcome.raised TaskExn.timeout) frW).2 frW1 rfl).2
    TaskExn.timeout rfl

/-- Event trace refuting C3: a handle is enqueued, then the completed signal
is set, then the collector takes one step. -/
def trC3 : List CEvent := [CEvent.enqueue 5, CEvent.setSignal, CEvent.step]

/-- C3 as stated fails on the code: with handle 5 already enqueued when the
completed signal is set, the collector observes the signal at the top of its
loop and exits immediately without draining — it has resolved nothing, the
handle is still in the queue, and further collector steps change nothing, so
the handle is lost. -/
theorem claimC3_counterexample :
    (cexec envW cinit trC3).pc = CollectorPC.exited ∧
    (cexec envW cinit trC3).queue = [5] ∧
    (cexec envW cinit trC3).resolvedList = [] ∧
    cstep envW (cexec envW cinit trC3) CEvent.step = cexec envW cinit trC3 := by
  refine ⟨by decide, by decide, by decide, by decide⟩

/-- C3 amended: the collector resolves enqueued handles at most once each and
in FIFO order — at every reachable state the resolved handles followed by the
still-queued ones are exactly the enqueued handles in order — but it runs
only until it observes the completed signal at the top of its loop, not until
the queue is drained: once it has exited, no further events resolve anything,
so handles still enqueued at exit are lost. -/
theorem claimC3_collector (env : RunEnv) (tr tr2 : List CEvent) :
    (cexec env cinit tr).resolvedList ++ (cexec env cinit tr).queue = enqueuedOf tr ∧
    ((cexec env cinit tr).pc = CollectorPC.exited →
      (cexec env (cexec env cinit tr) tr2).resolvedList
        = (cexec env cinit tr).resolvedList) := by
  constructor
  · have := cexec_fifo env tr cinit
    simpa [cinit] using this
  · intro hx
    exact (cexec_exited env tr2 (cexec env cinit tr) hx).2

/-- Witness for claimC3_collector: after the trace that exits with handle 5
enqueued, three more events (two collector steps and one late enqueue)
resolve nothing. -/
theorem claimC3_collector_witness :
    (cexec envW cinit trC3).pc = CollectorPC.exited ∧
    (cexec envW (cexec envW cinit trC3) [CEvent.step, CEvent.enqueue 9, CEvent.step]).resolvedList
      = (cexec envW cinit trC3).resolvedList :=
  ⟨by decide, (claimC3_collector envW trC3 [CEvent.step, CEvent.enqueue 9, CEvent.step]).2
    (by decide)⟩
